import Mathlib

/-!
Verification development for the orbit C++ streaming chat client
(src/clients/cpp/src/api_client.cpp, api_client.hpp).

Strings are modelled as `List Char`.  `std::string::find` / `rfind` are
modelled by explicit index searches, the newline scan loop of `on_write`
by a left fold that splits the accumulated buffer at newline characters,
and the curl transport by oracle parameters (whether `curl_easy_init`
succeeded, which byte chunks the transport delivered to the write
callback, and whether `curl_easy_perform` returned `CURLE_OK`).
-/

namespace Orbit

/-- One decoded unit of server output (`struct StreamResponse` in api_client.hpp). -/
structure StreamResponse where
  text : List Char
  done : Bool
deriving DecidableEq, Repr

/-- The six-character SSE marker `data: ` that `line.rfind("data: ", 0) == 0` tests for
(an at-position-0, i.e. starts-with, test). -/
def dataMarker : List Char := "data: ".toList

/-- The sentinel payload `[DONE]`. -/
def doneLit : List Char := "[DONE]".toList

/-- The literal key `"response":` searched for inside a payload. -/
def respKey : List Char := "\"response\":".toList

/-- Smallest index at which `pat` occurs in `hay`; mirrors `std::string::find(pat)`
(`none` plays the role of `npos`). -/
def findSub (hay pat : List Char) : Option Nat :=
  (List.range (hay.length + 1)).find? (fun i => pat.isPrefixOf (hay.drop i))

/-- Smallest index `j ≥ i` with `hay[j] = c`; mirrors `std::string::find(c, i)`. -/
def findCharFrom (hay : List Char) (c : Char) (i : Nat) : Option Nat :=
  (List.range hay.length).find? (fun j => decide (i ≤ j) && decide (hay[j]? = some c))

/-- Largest index at which `pat` occurs in `hay`; mirrors `std::string::rfind(pat)`. -/
def rfindSub (hay pat : List Char) : Option Nat :=
  ((List.range (hay.length + 1)).filter (fun i => pat.isPrefixOf (hay.drop i))).getLast?

/-- The literal suffix `/v1/chat` (8 characters). -/
def chatSuffix : List Char := "/v1/chat".toList

/-- `ApiClient::endpoint()`: returns `api_url_` unchanged when
`api_url_.size() >= 8 && api_url_.rfind("/v1/chat") == api_url_.size() - 8`,
else appends `v1/chat` when the url is nonempty and its last character is `/`
(`api_url_.back() == '/'`), else appends `/v1/chat`. -/
def endpoint (api_url : List Char) : List Char :=
  if 8 ≤ api_url.length ∧ rfindSub api_url chatSuffix = some (api_url.length - 8) then api_url
  else if api_url ≠ [] ∧ api_url.getLast? = some '/' then api_url ++ "v1/chat".toList
  else api_url ++ "/v1/chat".toList

/-- The per-character escaping performed by the `for (char c : message)` loop in
`stream_chat`: backslash, double quote and newline become two-character sequences,
every other character is passed through. -/
def escapeChar (c : Char) : List Char :=
  if c = '\\' then ['\\', '\\']
  else if c = '"' then ['\\', '"']
  else if c = '\n' then ['\\', 'n']
  else [c]

/-- The whole message after the escaping loop, in order. -/
def escape (message : List Char) : List Char := message.flatMap escapeChar

/-- The outbound request body built in `stream_chat`:
the literal head (ending in `"content":` with no opening quote for the value),
the escaped message, then `}],"stream":`, the boolean literal, and `}`. -/
def requestBody (message : List Char) (stream : Bool) : List Char :=
  "\x7b\"messages\":[\x7b\"role\":\"user\",\"content\":".toList
  ++ escape message
  ++ "\x7d],\"stream\":".toList
  ++ (if stream then "true".toList else "false".toList)
  ++ "\x7d".toList

/-- Processing of one complete candidate line in `on_write`:
lines not starting with `data: ` emit nothing; a `[DONE]` or empty payload emits
one terminal unit; a payload holding `"response":` emits the text between the first
two double quotes after the key when both exist and nothing otherwise; a payload
without the key is emitted verbatim. -/
def parseLine (line : List Char) : List StreamResponse :=
  if dataMarker.isPrefixOf line then
    if line.drop 6 = doneLit ∨ line.drop 6 = [] then [⟨[], true⟩]
    else
      match findSub (line.drop 6) respKey with
      | some kpos =>
        match findCharFrom (line.drop 6) '"' (kpos + respKey.length) with
        | some start =>
          match findCharFrom (line.drop 6) '"' (start + 1) with
          | some stop =>
            [⟨((line.drop 6).drop (start + 1)).take (stop - (start + 1)), false⟩]
          | none => []
        | none => []
      | none => [⟨line.drop 6, false⟩]
  else []

/-- One character of the newline scan in `on_write`: a newline closes the candidate
line being accumulated, any other character extends it. -/
def splitStep (acc : List (List Char) × List Char) (c : Char) : List (List Char) × List Char :=
  if c = '\n' then (acc.1 ++ [acc.2], []) else (acc.1, acc.2 ++ [c])

/-- The `find('\n')` loop of `on_write` over a buffer: the complete lines in order,
and the unterminated remainder kept as the new buffer. -/
def splitNl (buf : List Char) : List (List Char) × List Char :=
  buf.foldl splitStep ([], [])

/-- Emissions and retained remainder from scanning a buffer once. -/
def processBuffer (buf : List Char) : List StreamResponse × List Char :=
  ((splitNl buf).1.flatMap parseLine, (splitNl buf).2)

/-- One invocation of the curl write callback `on_write`: append the chunk to the
buffer, process every complete line, keep the remainder, and return
`size * nmemb` (the chunk length). Result: (callback invocations in order,
new buffer, return value). -/
def on_write (buffer chunk : List Char) : List StreamResponse × List Char × Nat :=
  ((processBuffer (buffer ++ chunk)).1, (processBuffer (buffer ++ chunk)).2, chunk.length)

/-- Repeated invocations of `on_write`, one per transport-delivered chunk, starting
from a given buffer; collects all callback invocations in order and the final buffer. -/
def runChunks (buffer : List Char) : List (List Char) → List StreamResponse × List Char
  | [] => ([], buffer)
  | c :: cs =>
    ((on_write buffer c).1 ++ (runChunks (on_write buffer c).2.1 cs).1,
     (runChunks (on_write buffer c).2.1 cs).2)

/-- The `Content-Type` header line. -/
def ctHeader : List Char := "Content-Type: application/json".toList

/-- The `Accept` header line used when streaming. -/
def acceptStream : List Char := "Accept: text/event-stream".toList

/-- The `Accept` header line used when not streaming. -/
def acceptJson : List Char := "Accept: application/json".toList

/-- The `X-API-Key: ` header stem. -/
def apiKeyH : List Char := "X-API-Key: ".toList

/-- The `X-Session-ID: ` header stem. -/
def sessionH : List Char := "X-Session-ID: ".toList

/-- The header list built in `stream_chat` via `curl_slist_append`, in order. -/
def headers (stream : Bool) (api_key session_id : List Char) : List (List Char) :=
  [ctHeader]
  ++ [if stream then acceptStream else acceptJson]
  ++ (if api_key ≠ [] then [apiKeyH ++ api_key] else [])
  ++ (if session_id ≠ [] then [sessionH ++ session_id] else [])

/-- The two `std::runtime_error` throws in `stream_chat`. -/
inductive TransportError where
  | initFailed
  | requestFailed
deriving DecidableEq, Repr

/-- `stream_chat` with the curl transport as an oracle: `initOk` is whether
`curl_easy_init` returned a handle, `chunks` are the response chunks curl hands to
`on_write`, `performOk` is whether `curl_easy_perform` returned `CURLE_OK`.
Returns the callback invocations actually made (none when init fails, since the
transfer never starts) together with normal or exceptional completion. -/
def stream_chat (initOk : Bool) (chunks : List (List Char)) (performOk : Bool) :
    List StreamResponse × Except TransportError Unit :=
  if initOk then
    if performOk then ((runChunks [] chunks).1, Except.ok ())
    else ((runChunks [] chunks).1, Except.error TransportError.requestFailed)
  else ([], Except.error TransportError.initFailed)

/-! ### Lemmas about the newline scan -/

lemma splitNl_def (buf : List Char) : splitNl buf = buf.foldl splitStep ([], []) := rfl

lemma foldl_splitStep_shift (b : List Char) (ls : List (List Char)) (cur : List Char) :
    b.foldl splitStep (ls, cur)
      = (ls ++ (b.foldl splitStep ([], cur)).1, (b.foldl splitStep ([], cur)).2) := by
  induction b generalizing ls cur with
  | nil => simp
  | cons c b ih =>
    simp only [List.foldl_cons, splitStep]
    by_cases hc : c = '\n'
    · simp only [if_pos hc]
      rw [ih (ls ++ [cur]) [], ih ([] ++ [cur]) []]
      simp [List.append_assoc]
    · simp only [if_neg hc]
      exact ih ls (cur ++ [c])

lemma foldl_splitStep_no_nl (b : List Char) (h : '\n' ∉ b) (ls : List (List Char))
    (cur : List Char) : b.foldl splitStep (ls, cur) = (ls, cur ++ b) := by
  induction b generalizing cur with
  | nil => simp
  | cons c b ih =>
    simp only [List.mem_cons, not_or] at h
    have hc : ¬ c = '\n' := fun hc => h.1 hc.symm
    simp only [List.foldl_cons, splitStep, if_neg hc]
    rw [ih h.2 (cur ++ [c])]
    simp

lemma nl_not_mem_foldl_snd (b : List Char) (ls : List (List Char)) (cur : List Char)
    (h : '\n' ∉ cur) : '\n' ∉ (b.foldl splitStep (ls, cur)).2 := by
  induction b generalizing ls cur with
  | nil => simpa using h
  | cons c b ih =>
    simp only [List.foldl_cons, splitStep]
    by_cases hc : c = '\n'
    · simp only [if_pos hc]
      exact ih _ _ (by simp)
    · simp only [if_neg hc]
      refine ih _ _ ?_
      simp only [List.mem_append, List.mem_singleton, not_or]
      exact ⟨h, fun hh => hc hh.symm⟩

lemma splitNl_snd_no_nl (buf : List Char) : '\n' ∉ (splitNl buf).2 :=
  nl_not_mem_foldl_snd buf [] [] (by simp)

lemma splitNl_no_nl (buf : List Char) (h : '\n' ∉ buf) : splitNl buf = ([], buf) := by
  rw [splitNl_def buf, foldl_splitStep_no_nl buf h [] []]
  simp

lemma splitNl_append (a b : List Char) :
    splitNl (a ++ b)
      = ((splitNl a).1 ++ (splitNl ((splitNl a).2 ++ b)).1,
         (splitNl ((splitNl a).2 ++ b)).2) := by
  have hsnd : splitNl ((splitNl a).2 ++ b) = b.foldl splitStep ([], (splitNl a).2) := by
    rw [splitNl_def ((splitNl a).2 ++ b), List.foldl_append,
      foldl_splitStep_no_nl _ (splitNl_snd_no_nl a) [] []]
    simp
  rw [hsnd, splitNl_def (a ++ b), List.foldl_append]
  rw [show List.foldl splitStep ([], []) a = ((splitNl a).1, (splitNl a).2) from rfl]
  exact foldl_splitStep_shift b (splitNl a).1 (splitNl a).2

lemma foldl_splitStep_reassemble (b : List Char) (ls : List (List Char)) (cur : List Char) :
    ((b.foldl splitStep (ls, cur)).1.flatMap (fun l => l ++ ['\n']))
        ++ (b.foldl splitStep (ls, cur)).2
      = (ls.flatMap (fun l => l ++ ['\n'])) ++ cur ++ b := by
  induction b generalizing ls cur with
  | nil => simp
  | cons c b ih =>
    simp only [List.foldl_cons, splitStep]
    by_cases hc : c = '\n'
    · simp only [hc, if_pos rfl]
      rw [ih]
      simp [List.append_assoc]
    · simp only [if_neg hc]
      rw [ih]
      simp [List.append_assoc]

lemma splitNl_reassemble (buf : List Char) :
    ((splitNl buf).1.flatMap (fun l => l ++ ['\n'])) ++ (splitNl buf).2 = buf := by
  have := foldl_splitStep_reassemble buf [] []
  simpa [splitNl] using this

lemma processBuffer_append (a b : List Char) :
    processBuffer (a ++ b)
      = ((processBuffer a).1 ++ (processBuffer ((processBuffer a).2 ++ b)).1,
         (processBuffer ((processBuffer a).2 ++ b)).2) := by
  unfold processBuffer
  rw [splitNl_append a b]
  simp [List.flatMap_append]

lemma runChunks_eq_processBuffer (chunks : List (List Char)) :
    ∀ buffer : List Char, '\n' ∉ buffer →
      runChunks buffer chunks = processBuffer (buffer ++ chunks.flatten) := by
  induction chunks with
  | nil =>
    intro buffer h
    simp [runChunks, processBuffer, splitNl_no_nl buffer h]
  | cons c cs ih =>
    intro buffer h
    have hrem : '\n' ∉ (processBuffer (buffer ++ c)).2 := splitNl_snd_no_nl (buffer ++ c)
    simp only [runChunks, on_write]
    rw [ih _ hrem]
    rw [List.flatten_cons, show buffer ++ (c ++ cs.flatten) = (buffer ++ c) ++ cs.flatten by
      simp [List.append_assoc]]
    rw [processBuffer_append (buffer ++ c) cs.flatten]

/-! ### Lemmas about the index searches -/

lemma isPrefixOf_prop (l1 l2 : List Char) :
    l1.isPrefixOf l2 = true ↔ l1 <+: l2 := List.isPrefixOf_iff_prefix

lemma infix_iff_drop (hay pat : List Char) :
    pat <:+: hay ↔ ∃ i, i ≤ hay.length ∧ pat <+: hay.drop i := by
  constructor
  · intro h
    obtain ⟨t, hpt, hth⟩ := List.infix_iff_prefix_suffix.mp h
    refine ⟨hay.length - t.length, by omega, ?_⟩
    rwa [← List.suffix_iff_eq_drop.mp hth]
  · rintro ⟨i, _, hp⟩
    exact List.infix_iff_prefix_suffix.mpr ⟨hay.drop i, hp, List.drop_suffix i hay⟩

lemma findSub_eq_none_iff (hay pat : List Char) :
    findSub hay pat = none ↔ ¬ pat <:+: hay := by
  unfold findSub
  rw [List.find?_eq_none, infix_iff_drop]
  push_neg
  constructor
  · intro h i hi
    have hne := h i (List.mem_range.mpr (by omega))
    exact fun hpf => hne (isPrefixOf_prop _ _ |>.mpr hpf)
  · intro h i hi
    intro hpf
    exact h i (by have := List.mem_range.mp hi; omega)
      (isPrefixOf_prop _ _ |>.mp hpf)

lemma findSub_some (hay pat : List Char) (k : Nat) (h : findSub hay pat = some k) :
    pat <+: hay.drop k := by
  have := List.find?_some h
  exact (isPrefixOf_prop _ _).mp this

lemma findCharFrom_some (hay : List Char) (c : Char) (i j : Nat)
    (h : findCharFrom hay c i = some j) : i ≤ j ∧ hay[j]? = some c := by
  have := List.find?_some h
  simpa using this

lemma rfindSub_of_suffix (hay pat : List Char) (h : pat <:+ hay) :
    rfindSub hay pat = some (hay.length - pat.length) := by
  unfold rfindSub
  have hple : pat.length ≤ hay.length := h.length_le
  have hsplit : hay.length + 1
      = (hay.length - pat.length + 1) + pat.length := by omega
  rw [hsplit, List.range_add, List.filter_append]
  have h2 : (List.map (fun x => hay.length - pat.length + 1 + x)
        (List.range pat.length)).filter (fun i => pat.isPrefixOf (hay.drop i)) = [] := by
    rw [List.filter_eq_nil_iff]
    intro a ha
    simp only [List.mem_map, List.mem_range] at ha
    obtain ⟨x, hx, rfl⟩ := ha
    intro hpre
    have hlen := (isPrefixOf_prop _ _ |>.mp hpre).length_le
    rw [List.length_drop] at hlen
    omega
  rw [h2, List.append_nil, List.range_succ, List.filter_append]
  have hm : pat.isPrefixOf (hay.drop (hay.length - pat.length)) = true := by
    rw [isPrefixOf_prop, ← List.suffix_iff_eq_drop.mp h]
  simp only [List.filter_cons, hm, List.filter_nil]
  exact List.getLast?_concat _

lemma suffix_of_rfindSub (hay pat : List Char) (hlen : pat.length ≤ hay.length)
    (h : rfindSub hay pat = some (hay.length - pat.length)) : pat <:+ hay := by
  unfold rfindSub at h
  have hmem := List.mem_of_mem_getLast? h
  rw [List.mem_filter] at hmem
  have hpre := isPrefixOf_prop _ _ |>.mp hmem.2
  have heq : pat = hay.drop (hay.length - pat.length) :=
    hpre.eq_of_length (by rw [List.length_drop]; omega)
  rw [List.suffix_iff_eq_drop]
  exact heq

lemma processBuffer_line_append (a b : List Char) :
    processBuffer ((a ++ ['\n']) ++ b)
      = ((processBuffer (a ++ ['\n'])).1 ++ (processBuffer b).1, (processBuffer b).2) := by
  rw [processBuffer_append (a ++ ['\n']) b]
  have h2 : (processBuffer (a ++ ['\n'])).2 = [] := by
    show (splitNl (a ++ ['\n'])).2 = []
    rw [splitNl_def, List.foldl_append]
    simp [splitStep]
  rw [h2]
  simp

/-! ### The claims -/

/-- C1: code bug.  The spec requires the body
`\x7b"messages":[\x7b"role":"user","content":"<escaped message>"\x7d],"stream":<bool>\x7d`
with the escaped message enclosed in double quotes, but `stream_chat` writes the
escaped message directly after `"content":` with no enclosing quotes (the string
literal before the escape loop ends in `"content\":` and the one after it starts
with `\x7d]`), so the produced body differs from the claimed body at every message. -/
theorem C1_body_missing_quotes :
    requestBody "hi".toList true
        = "\x7b\"messages\":[\x7b\"role\":\"user\",\"content\":hi\x7d],\"stream\":true\x7d".toList
    ∧ requestBody "hi".toList true
        ≠ "\x7b\"messages\":[\x7b\"role\":\"user\",\"content\":\"hi\"\x7d],\"stream\":true\x7d".toList
    ∧ requestBody "hi".toList false
        = "\x7b\"messages\":[\x7b\"role\":\"user\",\"content\":hi\x7d],\"stream\":false\x7d".toList := by
  decide

/-- C3 counterexample: the claim "no byte is dropped, except bytes on lines not
prefixed with 'data: '" is false: on the single chunk `data: [DONE]\n` the only
line carries the `data: ` marker, contains the byte `D`, yet the callback receives
only the empty-text terminal unit, so the byte `D` is dropped from a marked line. -/
theorem C3_buffer_invariant_cex :
    (on_write [] "data: [DONE]\n".toList).1 = [⟨[], true⟩]
    ∧ dataMarker.isPrefixOf "data: [DONE]".toList = true
    ∧ "data: [DONE]\n".toList.count 'D' = 1
    ∧ (((on_write [] "data: [DONE]\n".toList).1.flatMap StreamResponse.text).count 'D')
        = 0 := by
  decide

/-- C3 (amended): after feeding any sequence of chunks from an empty buffer, the
retained buffer is exactly the suffix of all bytes received so far that follows the
last newline (the complete lines rejoined with their newlines, followed by the
newline-free buffer, reassemble the whole input), and the emitted units are exactly
the concatenation of `parseLine` over the complete lines of the whole stream — each
complete line is consumed exactly once, none duplicated or lost across chunk
boundaries.  (Bytes inside a recognized line may still be dropped by payload
extraction: the marker, the sentinel, and the JSON framing are not delivered.) -/
theorem C3_buffer_invariant (chunks : List (List Char)) :
    runChunks [] chunks = processBuffer chunks.flatten
    ∧ (runChunks [] chunks).1 = (splitNl chunks.flatten).1.flatMap parseLine
    ∧ ((splitNl chunks.flatten).1.flatMap (fun l => l ++ ['\n']))
        ++ (runChunks [] chunks).2 = chunks.flatten
    ∧ (runChunks [] chunks).2.count '\n' = 0 := by
  have h := runChunks_eq_processBuffer chunks [] (by simp)
  rw [List.nil_append] at h
  refine ⟨h, ?_, ?_, ?_⟩
  · rw [h]; rfl
  · rw [h]
    exact splitNl_reassemble chunks.flatten
  · rw [h]
    exact List.count_eq_zero.mpr (splitNl_snd_no_nl chunks.flatten)

/-- C3 witness: the amended invariant at a concrete pair of chunks split inside a
line. -/
theorem C3_buffer_invariant_witness :
    runChunks [] ["data: a\nda".toList, "ta: b\n".toList]
      = processBuffer (["data: a\nda".toList, "ta: b\n".toList]).flatten :=
  (C3_buffer_invariant ["data: a\nda".toList, "ta: b\n".toList]).1

/-- C4: feeding the parser, from an empty buffer, the chunk
`data: \x7b"response":"hel` (no newline) emits nothing and keeps the whole chunk
buffered; the following chunk `lo"\x7d\n` completes the line and the two chunks
together produce exactly one unit, text `hello`, done = false. -/
theorem C4_chunk_boundary :
    on_write [] "data: \x7b\"response\":\"hel".toList
        = ([], "data: \x7b\"response\":\"hel".toList, 22)
    ∧ runChunks [] ["data: \x7b\"response\":\"hel".toList, "lo\"\x7d\n".toList]
        = ([⟨"hello".toList, false⟩], []) := by
  decide

/-- C9: lines are split only at `\n` and a carriage return is never stripped: the
chunk `data: [DONE]\r\n` yields the single candidate line `data: [DONE]\r`, whose
payload `[DONE]\r` is not the sentinel and holds no `"response":` key, so exactly
one unit with text `[DONE]\r`, done = false is emitted via the fallback branch —
not a terminal done event. -/
theorem C9_crlf_not_stripped :
    splitNl "data: [DONE]\r\n".toList = (["data: [DONE]\r".toList], [])
    ∧ on_write [] "data: [DONE]\r\n".toList
        = ([⟨"[DONE]\r".toList, false⟩], [], 14)
    ∧ splitStep ([], "abc".toList) '\r' = ([], "abc\r".toList) := by
  decide

/-- C10: a done unit does not terminate or alter parsing: `on_write` always returns
`size * nmemb` (the chunk length), the emissions for any bytes following a complete
`data: [DONE]\n` line are exactly those of processing the following bytes alone
(lines after the sentinel are handled by the very same rules), and a chunk with two
sentinel lines followed by a data line emits two done units and then the data unit. -/
theorem C10_done_not_terminal (a b buffer chunk : List Char) :
    (on_write buffer chunk).2.2 = chunk.length
    ∧ (processBuffer ((a ++ "data: [DONE]\n".toList) ++ b)).1
        = (processBuffer (a ++ "data: [DONE]\n".toList)).1 ++ (processBuffer b).1
    ∧ (processBuffer ((a ++ "data: [DONE]\n".toList) ++ b)).2 = (processBuffer b).2
    ∧ (runChunks [] ["data: [DONE]\ndata: [DONE]\ndata: x\n".toList]).1
        = [⟨[], true⟩, ⟨[], true⟩, ⟨"x".toList, false⟩] := by
  have hdn : a ++ "data: [DONE]\n".toList = (a ++ "data: [DONE]".toList) ++ ['\n'] := by
    rw [show "data: [DONE]\n".toList = "data: [DONE]".toList ++ ['\n'] from by decide,
      List.append_assoc]
  refine ⟨rfl, ?_, ?_, by decide⟩
  · rw [hdn, processBuffer_line_append]
  · rw [hdn, processBuffer_line_append]

/-- C10 witness: the return value at a concrete chunk. -/
theorem C10_done_not_terminal_witness :
    (on_write [] "data: x\n".toList).2.2 = ("data: x\n".toList).length :=
  (C10_done_not_terminal [] [] [] "data: x\n".toList).1

/-- C2: for every complete line delivered to the parser: no emission without the
`data: ` marker; with the marker, a `[DONE]` or empty payload emits exactly the
terminal unit; a payload whose `"response":` key is found at `kpos` with a first
double quote after the key at `start` and a next one at `stop` emits exactly the
unit whose text is the substring strictly between those quotes; a payload without
the key emits exactly the unit carrying the payload verbatim. -/
theorem C2_line_emission (line : List Char) :
    (¬ dataMarker <+: line → parseLine line = [])
    ∧ (dataMarker <+: line → (line.drop 6 = doneLit ∨ line.drop 6 = []) →
        parseLine line = [⟨[], true⟩])
    ∧ (dataMarker <+: line → line.drop 6 ≠ doneLit → line.drop 6 ≠ [] →
        ∀ kpos start stop,
          findSub (line.drop 6) respKey = some kpos →
          findCharFrom (line.drop 6) '"' (kpos + respKey.length) = some start →
          findCharFrom (line.drop 6) '"' (start + 1) = some stop →
          parseLine line
            = [⟨((line.drop 6).drop (start + 1)).take (stop - (start + 1)), false⟩])
    ∧ (dataMarker <+: line → line.drop 6 ≠ doneLit → line.drop 6 ≠ [] →
        ¬ respKey <:+: line.drop 6 →
        parseLine line = [⟨line.drop 6, false⟩]) := by
  refine ⟨?_, ?_, ?_, ?_⟩
  · intro h
    have hb : ¬ (dataMarker.isPrefixOf line = true) :=
      fun hh => h (isPrefixOf_prop _ _ |>.mp hh)
    unfold parseLine
    rw [if_neg hb]
  · intro hp hd
    have hb : dataMarker.isPrefixOf line = true := isPrefixOf_prop _ _ |>.mpr hp
    unfold parseLine
    rw [if_pos hb, if_pos hd]
  · intro hp hd1 hd2 kpos start stop hk hs he
    have hb : dataMarker.isPrefixOf line = true := isPrefixOf_prop _ _ |>.mpr hp
    unfold parseLine
    rw [if_pos hb, if_neg (by tauto)]
    simp only [hk, hs, he]
  · intro hp hd1 hd2 hni
    have hb : dataMarker.isPrefixOf line = true := isPrefixOf_prop _ _ |>.mpr hp
    have hnone : findSub (line.drop 6) respKey = none := (findSub_eq_none_iff _ _).mpr hni
    unfold parseLine
    rw [if_pos hb, if_neg (by tauto), hnone]

/-- C2 witness: instances of all four cases at concrete lines. -/
theorem C2_line_emission_witness :
    parseLine ": keep-alive".toList = []
    ∧ parseLine "data: [DONE]".toList = [⟨[], true⟩]
    ∧ parseLine "data: \x7b\"response\":\"hello\"\x7d".toList = [⟨"hello".toList, false⟩]
    ∧ parseLine "data: plain".toList = [⟨"plain".toList, false⟩] :=
  ⟨(C2_line_emission _).1 (by decide),
   (C2_line_emission _).2.1 (by decide) (by decide),
   (C2_line_emission _).2.2.1 (by decide) (by decide) (by decide) 1 12 18
     (by decide) (by decide) (by decide),
   (C2_line_emission _).2.2.2 (by decide) (by decide) (by decide) (by decide)⟩

/-- C5: for every base URL, a URL already ending in `/v1/chat` is returned
unchanged; otherwise a URL ending in `/` gets `v1/chat` appended; otherwise
`/v1/chat` is appended. -/
theorem C5_endpoint_derivation (url : List Char) :
    (chatSuffix <:+ url → endpoint url = url)
    ∧ (¬ chatSuffix <:+ url → url.getLast? = some '/' →
        endpoint url = url ++ "v1/chat".toList)
    ∧ (¬ chatSuffix <:+ url → url.getLast? ≠ some '/' →
        endpoint url = url ++ "/v1/chat".toList) := by
  have hlen8 : chatSuffix.length = 8 := by decide
  refine ⟨?_, ?_, ?_⟩
  · intro h
    have h8 : 8 ≤ url.length := by have := h.length_le; omega
    have hr : rfindSub url chatSuffix = some (url.length - 8) := by
      rw [show url.length - 8 = url.length - chatSuffix.length from by omega]
      exact rfindSub_of_suffix url chatSuffix h
    unfold endpoint
    rw [if_pos ⟨h8, hr⟩]
  · intro hns hsl
    have hcond : ¬ (8 ≤ url.length ∧ rfindSub url chatSuffix = some (url.length - 8)) := by
      rintro ⟨h8, hr⟩
      refine hns (suffix_of_rfindSub url chatSuffix (by omega) ?_)
      rwa [show url.length - chatSuffix.length = url.length - 8 from by omega]
    have hne : url ≠ [] := by
      intro h
      rw [h] at hsl
      simp at hsl
    unfold endpoint
    rw [if_neg hcond, if_pos ⟨hne, hsl⟩]
  · intro hns hnsl
    have hcond : ¬ (8 ≤ url.length ∧ rfindSub url chatSuffix = some (url.length - 8)) := by
      rintro ⟨h8, hr⟩
      refine hns (suffix_of_rfindSub url chatSuffix (by omega) ?_)
      rwa [show url.length - chatSuffix.length = url.length - 8 from by omega]
    have hcond2 : ¬ (url ≠ [] ∧ url.getLast? = some '/') := by
      rintro ⟨-, h⟩
      exact hnsl h
    unfold endpoint
    rw [if_neg hcond, if_neg hcond2]

/-- C5 witness: the three cases at concrete base URLs. -/
theorem C5_endpoint_derivation_witness :
    endpoint "http://h/v1/chat".toList = "http://h/v1/chat".toList
    ∧ endpoint "base/".toList = "base/".toList ++ "v1/chat".toList
    ∧ endpoint "base".toList = "base".toList ++ "/v1/chat".toList :=
  ⟨(C5_endpoint_derivation _).1 (by decide),
   (C5_endpoint_derivation _).2.1 (by decide) (by decide),
   (C5_endpoint_derivation _).2.2 (by decide) (by decide)⟩

lemma escape_id (m : List Char) (h : ∀ c ∈ m, c ≠ '\\' ∧ c ≠ '"' ∧ c ≠ '\n') :
    escape m = m := by
  induction m with
  | nil => rfl
  | cons c m ih =>
    have hc := h c (by simp)
    have hm : ∀ x ∈ m, x ≠ '\\' ∧ x ≠ '"' ∧ x ≠ '\n' := fun x hx => h x (by simp [hx])
    show escapeChar c ++ m.flatMap escapeChar = c :: m
    rw [escapeChar, if_neg hc.1, if_neg hc.2.1, if_neg hc.2.2]
    have := ih hm
    rw [show m.flatMap escapeChar = escape m from rfl, this]
    rfl

/-- C6: the escaping is the identity (hence idempotent) on messages with no
backslash, double quote or newline; in general it is the in-order concatenation of
a per-character map that sends backslash, double quote and newline to their
two-character sequences and every other character to itself, so each occurrence is
replaced in place and the relative order of all characters is preserved. -/
theorem C6_escape_shape (m : List Char) :
    ((∀ c ∈ m, c ≠ '\\' ∧ c ≠ '"' ∧ c ≠ '\n') → escape m = m)
    ∧ ((∀ c ∈ m, c ≠ '\\' ∧ c ≠ '"' ∧ c ≠ '\n') → escape (escape m) = escape m)
    ∧ escape m = m.flatMap escapeChar
    ∧ escapeChar '\\' = ['\\', '\\']
    ∧ escapeChar '"' = ['\\', '"']
    ∧ escapeChar '\n' = ['\\', 'n']
    ∧ (∀ c, c ≠ '\\' → c ≠ '"' → c ≠ '\n' → escapeChar c = [c]) := by
  refine ⟨?_, ?_, rfl, by decide, by decide, by decide, ?_⟩
  · intro h
    exact escape_id m h
  · intro h
    rw [escape_id m h]
    exact escape_id m h
  · intro c h1 h2 h3
    rw [escapeChar, if_neg h1, if_neg h2, if_neg h3]

/-- C6 witness: identity on a plain message, and the general shape at a message
holding all three special characters. -/
theorem C6_escape_shape_witness :
    escape "ab".toList = "ab".toList
    ∧ escape "a\"b\\c\nd".toList = "a\\\"b\\\\c\\nd".toList :=
  ⟨(C6_escape_shape "ab".toList).1 (by decide), by decide⟩

/-- C7: `stream_chat` completes normally exactly when the transport handle was
created and the transport reported success, so an error is raised precisely on
init or transport failure; the units already delivered by the write callback are
whatever the chunks produced, independent of the final transport outcome (no
rollback); and parsing itself never fails: a payload holding the `"response":` key
followed by fewer than two double quotes emits nothing and processing continues. -/
theorem C7_error_semantics (initOk performOk : Bool) (chunks : List (List Char)) :
    ((stream_chat initOk chunks performOk).2 = Except.ok ()
      ↔ (initOk = true ∧ performOk = true))
    ∧ (initOk = true →
        (stream_chat initOk chunks performOk).1 = (runChunks [] chunks).1)
    ∧ parseLine "data: \x7b\"response\":\x7d".toList = []
    ∧ parseLine "data: \x7b\"response\":\"abc".toList = [] := by
  refine ⟨?_, ?_, by decide, by decide⟩
  · cases initOk <;> cases performOk <;> simp [stream_chat]
  · intro h
    subst h
    cases performOk <;> simp [stream_chat]

/-- C7 witness: a failed transfer still reports the units delivered before the
failure. -/
theorem C7_error_semantics_witness :
    (stream_chat true ["data: x\n".toList] false).1
      = (runChunks [] ["data: x\n".toList]).1 :=
  (C7_error_semantics true false ["data: x\n".toList]).2.1 rfl

lemma ne_of_getElem? (x y : List Char) (i : Nat) (h : x[i]? ≠ y[i]?) : x ≠ y :=
  fun e => h (by rw [e])

lemma apiKeyH_zero (t : List Char) : (apiKeyH ++ t)[0]? = some 'X' := rfl

lemma apiKeyH_two (t : List Char) : (apiKeyH ++ t)[2]? = some 'A' := rfl

lemma sessionH_zero (t : List Char) : (sessionH ++ t)[0]? = some 'X' := rfl

lemma sessionH_two (t : List Char) : (sessionH ++ t)[2]? = some 'S' := rfl

/-- C8: the header set always holds the content type; it holds the streaming
accept line exactly when the stream flag is set and the JSON accept line exactly
when it is not; it holds the API-key header exactly when the configured key is
non-empty, and the session header exactly when the configured session id is
non-empty. -/
theorem C8_headers (stream : Bool) (k s : List Char) :
    ctHeader ∈ headers stream k s
    ∧ (acceptStream ∈ headers stream k s ↔ stream = true)
    ∧ (acceptJson ∈ headers stream k s ↔ stream = false)
    ∧ (apiKeyH ++ k ∈ headers stream k s ↔ k ≠ [])
    ∧ (sessionH ++ s ∈ headers stream k s ↔ s ≠ []) := by
  have f1 : acceptStream ≠ ctHeader := by decide
  have f2 : acceptStream ≠ acceptJson := by decide
  have f3 : ∀ t, acceptStream ≠ apiKeyH ++ t :=
    fun t => ne_of_getElem? _ _ 0 (by rw [apiKeyH_zero]; decide)
  have f5 : ∀ t, acceptStream ≠ sessionH ++ t :=
    fun t => ne_of_getElem? _ _ 0 (by rw [sessionH_zero]; decide)
  have g1 : acceptJson ≠ ctHeader := by decide
  have g2 : acceptJson ≠ acceptStream := by decide
  have g3 : ∀ t, acceptJson ≠ apiKeyH ++ t :=
    fun t => ne_of_getElem? _ _ 0 (by rw [apiKeyH_zero]; decide)
  have g5 : ∀ t, acceptJson ≠ sessionH ++ t :=
    fun t => ne_of_getElem? _ _ 0 (by rw [sessionH_zero]; decide)
  have k1 : apiKeyH ≠ ctHeader := by decide
  have k2 : apiKeyH ≠ acceptStream := by decide
  have k3 : apiKeyH ≠ acceptJson := by decide
  have k4 : ∀ u, apiKeyH ≠ sessionH ++ u :=
    fun u => ne_of_getElem? _ _ 2 (by rw [sessionH_two]; decide)
  have s1 : sessionH ≠ ctHeader := by decide
  have s2 : sessionH ≠ acceptStream := by decide
  have s3 : sessionH ≠ acceptJson := by decide
  have s4 : ∀ t, sessionH ≠ apiKeyH ++ t :=
    fun t => ne_of_getElem? _ _ 2 (by rw [apiKeyH_two]; decide)
  refine ⟨?_, ?_, ?_, ?_, ?_⟩ <;>
    cases stream <;> by_cases hk : k = [] <;> by_cases hs : s = [] <;>
      simp [headers, hk, hs, f1, f2, f3, f5, g1, g2, g3, g5, k1, k2, k3, k4, s1, s2, s3, s4]

/-- C8 witness: the always-present content type header at a concrete configuration. -/
theorem C8_headers_witness :
    ctHeader ∈ headers true "key".toList [] :=
  (C8_headers true "key".toList []).1

end Orbit
